import Mathlib

/-!
Verification of the submission-and-status-tracking pipeline in `src/AA/bundler.py`.

The embedding translates the FastAPI bundler service into pure Lean functions:

* `UserOperation` mirrors the pydantic `UserOperation` model (line 18);
  `RawUserOperation` is the wire-level input before pydantic validation, with
  every field optional, and `parseUserOperation` is the presence check pydantic
  performs on required fields (the field types are plain `int`, so no sign
  constraint is imposed — that is exactly what the source does).
* `OperationRecord` mirrors a row of the sqlite `operations` table (line 40);
  the `user_op` column stores the serialized operation, modelled here by the
  `UserOperation` value itself (serialization is treated as the identity).
* `submit_op` embeds the intake endpoint (line 47): fresh uuid supplied as an
  argument, `INSERT` with a primary-key constraint (a duplicate id makes the
  insert raise, so the call errors and persists nothing).
* `sqlUpdate` embeds the two `UPDATE operations SET ...  WHERE op_hash = ?`
  statements of `process_op` (lines 78 and 85): it rewrites every row whose
  `op_hash` matches and silently touches nothing otherwise.  `updateStatus`
  wraps it in an error type to record that the source update can never fail.
* `process_op` embeds the worker (line 59): it builds the ledger transaction
  with `buildTx` (the dict literal at line 63), hands it to an abstract
  gateway (`w3.eth` signing, broadcast and inclusion wait), and on the success
  outcome writes `completed` plus the serialized receipt, on any exception
  writes `failed` and nothing else.
* `get_status` and `get_history` embed the two read endpoints (lines 90, 101).
* `SysState`, `stepEvent`, `runFrom`, `run` give the execution model: a store
  plus the set of op hashes with an outstanding `asyncio` task; each event is
  either an intake call or the completion of one worker task.
-/

inductive Status where
  | pending
  | completed
  | failed
deriving DecidableEq

structure UserOperation where
  sender : String
  nonce : Int
  initCode : String
  callData : String
  callGasLimit : Int
  verificationGasLimit : Int
  preVerificationGas : Int
  maxFeePerGas : Int
  maxPriorityFeePerGas : Int
  signature : String
  paymasterAndData : String
deriving DecidableEq

/-- The wire-level input document: every field may be absent.  Pydantic
rejects the request iff a required field is missing; the declared field types
are plain `int` / `str`, so any integer value (negative included) passes. -/
structure RawUserOperation where
  sender : Option String
  nonce : Option Int
  initCode : Option String
  callData : Option String
  callGasLimit : Option Int
  verificationGasLimit : Option Int
  preVerificationGas : Option Int
  maxFeePerGas : Option Int
  maxPriorityFeePerGas : Option Int
  signature : Option String
  paymasterAndData : Option String
deriving DecidableEq

inductive ValidationError where
  | missingField (name : String)
deriving DecidableEq

def requireField {α : Type} (name : String) : Option α → Except ValidationError α
  | none => .error (.missingField name)
  | some a => .ok a

/-- Pydantic validation of the request body: succeeds iff every required field
is present.  No sign check is performed on the integer fields, as in the
source model. -/
def parseUserOperation (raw : RawUserOperation) : Except ValidationError UserOperation := do
  let sender ← requireField "sender" raw.sender
  let nonce ← requireField "nonce" raw.nonce
  let initCode ← requireField "initCode" raw.initCode
  let callData ← requireField "callData" raw.callData
  let callGasLimit ← requireField "callGasLimit" raw.callGasLimit
  let verificationGasLimit ← requireField "verificationGasLimit" raw.verificationGasLimit
  let preVerificationGas ← requireField "preVerificationGas" raw.preVerificationGas
  let maxFeePerGas ← requireField "maxFeePerGas" raw.maxFeePerGas
  let maxPriorityFeePerGas ← requireField "maxPriorityFeePerGas" raw.maxPriorityFeePerGas
  let signature ← requireField "signature" raw.signature
  let paymasterAndData ← requireField "paymasterAndData" raw.paymasterAndData
  return { sender, nonce, initCode, callData, callGasLimit, verificationGasLimit,
           preVerificationGas, maxFeePerGas, maxPriorityFeePerGas, signature,
           paymasterAndData }

/-- All required fields present (the condition under which pydantic accepts). -/
def allPresent (raw : RawUserOperation) : Bool :=
  raw.sender.isSome && (raw.nonce.isSome && (raw.initCode.isSome && (raw.callData.isSome &&
    (raw.callGasLimit.isSome && (raw.verificationGasLimit.isSome &&
    (raw.preVerificationGas.isSome && (raw.maxFeePerGas.isSome &&
    (raw.maxPriorityFeePerGas.isSome && (raw.signature.isSome &&
    raw.paymasterAndData.isSome)))))))))

/-- One row of the sqlite `operations` table. -/
structure OperationRecord where
  op_hash : String
  user_op : UserOperation
  status : Status
  receipt : Option String
  created_at : Int
deriving DecidableEq

inductive ApiError where
  | validation (e : ValidationError)
  | duplicateId
  | notFound
deriving DecidableEq

def storeIds (store : List OperationRecord) : List String :=
  store.map fun r => r.op_hash

/-- `SELECT 1 FROM operations WHERE op_hash = ?` — whether a row exists. -/
def hasId (store : List OperationRecord) (h : String) : Bool :=
  store.any fun r => r.op_hash == h

def mkRecord (h : String) (u : UserOperation) (now : Int) : OperationRecord :=
  { op_hash := h, user_op := u, status := .pending, receipt := none, created_at := now }

/-- The intake endpoint (`submit_op`, line 47).  The fresh uuid and the clock
value are passed as arguments.  The `INSERT` persists a `pending` row with a
NULL receipt; an id collision violates the primary key, so the call raises and
persists nothing. -/
def submit_op (store : List OperationRecord) (op_hash : String)
    (raw : RawUserOperation) (now : Int) :
    Except ApiError String × List OperationRecord :=
  match parseUserOperation raw with
  | .error e => (.error (.validation e), store)
  | .ok user_op =>
    if hasId store op_hash then (.error .duplicateId, store)
    else (.ok op_hash, store ++ [mkRecord op_hash user_op now])

/-- SQL UPDATE semantics of a `SET receipt = ?` clause: `some s` sets the
column, `none` means the statement does not mention the column. -/
def applyReceipt (rc : Option String) (old : Option String) : Option String :=
  match rc with
  | some s => some s
  | none => old

/-- The two `UPDATE operations SET ... WHERE op_hash = ?` statements of
`process_op` (lines 78 and 85): every row whose key matches is rewritten;
a non-matching key silently changes nothing. -/
def sqlUpdate (store : List OperationRecord) (h : String) (st : Status)
    (rc : Option String) : List OperationRecord :=
  store.map fun r =>
    if r.op_hash == h then
      { r with status := st, receipt := applyReceipt rc r.receipt }
    else r

/-- The record store's status-update operation as the source implements it:
a bare SQL UPDATE, which can never fail — there is no row-count check, no
not-found error and no terminal-state guard. -/
def updateStatus (store : List OperationRecord) (h : String) (st : Status)
    (rc : Option String) : Except ApiError (List OperationRecord) :=
  .ok (sqlUpdate store h st rc)

/-- `json.dumps(dict(receipt))` — opaque serialization of the gateway
confirmation payload. -/
def jsonDumpsDict (kvs : List (String × String)) : String :=
  "\x7b" ++ String.intercalate ", " (kvs.map fun kv => "\x22" ++ kv.1 ++ "\x22: " ++ kv.2)
    ++ "\x7d"

/-- Result of the gateway interaction inside the `try` block of `process_op`:
either the inclusion receipt (a dict), or any exception raised at any step
(sequence-number fetch, signing, broadcast, inclusion wait). -/
inductive GatewayOutcome where
  | success (receiptFields : List (String × String))
  | failure
deriving DecidableEq

def entry_point_address : String := "0x5FF137D4b0FDCD49DcA30c7CF57E578a026d2789"

/-- `encode_user_op` (line 110): the placeholder encoding, constantly "0x". -/
def encode_user_op (_op : UserOperation) : String := "0x"

structure LedgerTx where
  toAddr : String
  data : String
  gas : Int
  maxFeePerGas : Int
  maxPriorityFeePerGas : Int
  nonce : Int
deriving DecidableEq

/-- The transaction dict built by `process_op` (line 63): fixed destination,
placeholder payload, hard-coded gas, fee fields copied from the operation,
nonce taken from the relayer account's chain sequence number. -/
def buildTx (user_op : UserOperation) (relayerNonce : Int) : LedgerTx :=
  { toAddr := entry_point_address
    data := encode_user_op user_op
    gas := 1000000
    maxFeePerGas := user_op.maxFeePerGas
    maxPriorityFeePerGas := user_op.maxPriorityFeePerGas
    nonce := relayerNonce }

/-- The database write performed by `process_op` once the gateway interaction
has resolved: success writes `completed` and the serialized receipt; any
exception writes `failed` and touches no other column. -/
def applyOutcome (store : List OperationRecord) (h : String) :
    GatewayOutcome → List OperationRecord
  | .success rc => sqlUpdate store h .completed (some (jsonDumpsDict rc))
  | .failure => sqlUpdate store h .failed none

/-- The submission worker (`process_op`, line 59).  The gateway argument
abstracts `w3.eth` (sequence-number fetch, signing, broadcast, inclusion
wait); it receives the transaction the worker built. -/
def process_op (store : List OperationRecord) (op_hash : String)
    (user_op : UserOperation) (relayerNonce : Int)
    (gateway : LedgerTx → GatewayOutcome) : List OperationRecord :=
  applyOutcome store op_hash (gateway (buildTx user_op relayerNonce))

structure OpStatus where
  op_hash : String
  status : Status
  receipt : Option String
deriving DecidableEq

/-- `json.loads(result[1]) if result[1] else None`: a NULL or empty receipt
column reads back as null; the payload itself is kept serialized. -/
def decodeReceipt : Option String → Option String
  | none => none
  | some s => if s = "" then none else some s

def findRecord (store : List OperationRecord) (h : String) : Option OperationRecord :=
  store.find? fun r => r.op_hash == h

/-- The status endpoint (`get_status`, line 90): 404 when no row matches. -/
def get_status (store : List OperationRecord) (h : String) : Except ApiError OpStatus :=
  match findRecord store h with
  | none => .error .notFound
  | some r => .ok { op_hash := h, status := r.status, receipt := decodeReceipt r.receipt }

/-- The history endpoint (`get_history`, line 101). -/
def get_history (store : List OperationRecord) : List OpStatus :=
  store.map fun r => { op_hash := r.op_hash, status := r.status, receipt := decodeReceipt r.receipt }

/-! ## Execution model

A system state is the persisted store plus the op hashes with an outstanding
`asyncio` task.  An event is either an intake request (which schedules a task
exactly when the insert succeeded) or the completion of one outstanding worker
task with some gateway outcome. -/

structure SysState where
  store : List OperationRecord
  jobs : List String
deriving DecidableEq

def initState : SysState := { store := [], jobs := [] }

inductive Event where
  | submit (op_hash : String) (raw : RawUserOperation) (now : Int)
  | work (op_hash : String) (outcome : GatewayOutcome)
deriving DecidableEq

def stepEvent (s : SysState) : Event → SysState
  | .submit h raw now =>
    match parseUserOperation raw with
    | .error _ => s
    | .ok u =>
      if hasId s.store h then s
      else { store := s.store ++ [mkRecord h u now], jobs := h :: s.jobs }
  | .work h outcome =>
    if h ∈ s.jobs then { store := applyOutcome s.store h outcome, jobs := s.jobs.erase h }
    else s

def runFrom (s : SysState) : List Event → SysState
  | [] => s
  | e :: es => runFrom (stepEvent s e) es

def run (es : List Event) : SysState := runFrom initState es

/-- Number of intake calls in a trace that are accepted (valid body, fresh id). -/
def acceptedSubmit (s : SysState) : Event → Nat
  | .submit h raw _ =>
    match parseUserOperation raw with
    | .ok _ => if hasId s.store h then 0 else 1
    | .error _ => 0
  | .work _ _ => 0

def countAccepted (s : SysState) : List Event → Nat
  | [] => 0
  | e :: es => acceptedSubmit s e + countAccepted (stepEvent s e) es

/-- The inductive system invariant: row keys are unique, outstanding tasks
are unique and belong to existing rows, the receipt column is set exactly on
`completed` rows, and a row that has left `pending` has no outstanding task. -/
structure SysInv (s : SysState) : Prop where
  ids_nodup : (storeIds s.store).Nodup
  jobs_nodup : s.jobs.Nodup
  jobs_sub : ∀ h ∈ s.jobs, h ∈ storeIds s.store
  receipt_iff : ∀ r ∈ s.store, (r.receipt ≠ none ↔ r.status = Status.completed)
  terminal_no_job : ∀ r ∈ s.store, r.status ≠ Status.pending → r.op_hash ∉ s.jobs

/-! ## Basic lemmas about the store operations -/

theorem length_sqlUpdate (store : List OperationRecord) (h : String) (st : Status)
    (rc : Option String) : (sqlUpdate store h st rc).length = store.length := by
  simp [sqlUpdate]

theorem storeIds_sqlUpdate (store : List OperationRecord) (h : String) (st : Status)
    (rc : Option String) : storeIds (sqlUpdate store h st rc) = storeIds store := by
  unfold storeIds sqlUpdate
  rw [List.map_map]
  apply List.map_congr_left
  intro r _
  simp only [Function.comp_apply]
  split <;> rfl

theorem hasId_eq_false_iff (store : List OperationRecord) (h : String) :
    hasId store h = false ↔ ∀ r ∈ store, r.op_hash ≠ h := by
  simp [hasId]

theorem mem_storeIds (store : List OperationRecord) (h : String) :
    h ∈ storeIds store ↔ ∃ r ∈ store, r.op_hash = h := by
  simp [storeIds]

theorem sqlUpdate_of_not_mem (store : List OperationRecord) (h : String) (st : Status)
    (rc : Option String) (hm : ∀ r ∈ store, r.op_hash ≠ h) :
    sqlUpdate store h st rc = store := by
  unfold sqlUpdate
  have h1 : store.map (fun r =>
      if r.op_hash == h then { r with status := st, receipt := applyReceipt rc r.receipt }
      else r) = store.map id := by
    apply List.map_congr_left
    intro r hr
    simp [hm r hr]
  simpa using h1

theorem findRecord_of_nodup (store : List OperationRecord) (r : OperationRecord)
    (hnd : (storeIds store).Nodup) (hr : r ∈ store) :
    findRecord store r.op_hash = some r := by
  induction store with
  | nil => cases hr
  | cons a tl ih =>
    have hnd' : (storeIds tl).Nodup := (List.nodup_cons.mp hnd).2
    rcases List.mem_cons.mp hr with rfl | htl
    · simp [findRecord]
    · have hne : (a.op_hash == r.op_hash) = false := by
        simp only [beq_eq_false_iff_ne, ne_eq]
        intro he
        have hmem : r.op_hash ∈ storeIds tl := (mem_storeIds tl r.op_hash).mpr ⟨r, htl, rfl⟩
        rw [← he] at hmem
        exact (List.nodup_cons.mp hnd).1 hmem
      have step : findRecord (a :: tl) r.op_hash = findRecord tl r.op_hash := by
        simp [findRecord, List.find?_cons, hne]
      rw [step]
      exact ih hnd' htl

theorem findRecord_append_of_absent (l1 l2 : List OperationRecord) (h : String)
    (hm : ∀ r ∈ l1, r.op_hash ≠ h) :
    findRecord (l1 ++ l2) h = findRecord l2 h := by
  induction l1 with
  | nil => rfl
  | cons a tl ih =>
    have hne : (a.op_hash == h) = false := by
      simp only [beq_eq_false_iff_ne, ne_eq]
      exact hm a (List.mem_cons_self a tl)
    have step : findRecord ((a :: tl) ++ l2) h = findRecord (tl ++ l2) h := by
      simp [findRecord, List.find?_cons, hne]
    rw [step]
    exact ih fun r hr => hm r (List.mem_cons_of_mem a hr)

/-- Concrete operation used by the evaluation witnesses. -/
def rawExample : RawUserOperation :=
  { sender := some "0xAA", nonce := some 0, initCode := some "0x", callData := some "0x",
    callGasLimit := some 21000, verificationGasLimit := some 21000,
    preVerificationGas := some 21000, maxFeePerGas := some 2, maxPriorityFeePerGas := some 1,
    signature := some "0xsig", paymasterAndData := some "0x" }

def opExample : UserOperation :=
  { sender := "0xAA", nonce := 0, initCode := "0x", callData := "0x",
    callGasLimit := 21000, verificationGasLimit := 21000, preVerificationGas := 21000,
    maxFeePerGas := 2, maxPriorityFeePerGas := 1, signature := "0xsig",
    paymasterAndData := "0x" }

/-! ## C8 — unknown identifier yields a not-found error -/

/-- C8: a status query for an identifier that was never issued (no row with
that key exists) fails with the not-found error: it neither crashes nor
returns an empty success response. -/
theorem spec_c8 (store : List OperationRecord) (h : String)
    (hfresh : hasId store h = false) :
    get_status store h = .error .notFound := by
  have hnone : findRecord store h = none := by
    rw [findRecord, List.find?_eq_none]
    intro r hr
    simpa using (hasId_eq_false_iff store h).mp hfresh r hr
  simp [get_status, hnone]

theorem spec_c8_witness :
    hasId [mkRecord "a" opExample 0] "zzz" = false ∧
      get_status [mkRecord "a" opExample 0] "zzz" = .error .notFound :=
  ⟨by decide, spec_c8 [mkRecord "a" opExample 0] "zzz" (by decide)⟩

/-! ## C10 — the built transaction ignores every operation field but the fees -/

/-- C10: the payload encoding is the constant "0x" and the gas field the
constant 1000000, so for any two operations agreeing on the two fee-rate
fields the built transactions coincide entirely; destination, payload and gas
coincide for any two operations whatever. -/
theorem spec_c10 (op1 op2 : UserOperation) (relayerNonce : Int)
    (hf : op1.maxFeePerGas = op2.maxFeePerGas)
    (hp : op1.maxPriorityFeePerGas = op2.maxPriorityFeePerGas) :
    encode_user_op op1 = "0x" ∧
      (buildTx op1 relayerNonce).gas = 1000000 ∧
      buildTx op1 relayerNonce = buildTx op2 relayerNonce := by
  refine ⟨rfl, rfl, ?_⟩
  simp [buildTx, encode_user_op, hf, hp]

/-- A second concrete operation: same fees as `opExample`, different sender,
nonce, payload and signature. -/
def opExampleB : UserOperation :=
  { sender := "0xBB", nonce := 7, initCode := "0x", callData := "0xdeadbeef",
    callGasLimit := 50000, verificationGasLimit := 60000, preVerificationGas := 70000,
    maxFeePerGas := 2, maxPriorityFeePerGas := 1, signature := "0xother",
    paymasterAndData := "0xpm" }

theorem spec_c10_witness :
    opExampleB.maxFeePerGas = opExample.maxFeePerGas ∧
      opExampleB.sender ≠ opExample.sender ∧
      buildTx opExampleB 5 = buildTx opExample 5 :=
  ⟨rfl, by decide, (spec_c10 opExampleB opExample 5 rfl rfl).2.2⟩

/-! ## C2 — the worker writes exactly the terminal outcome of the gateway -/

/-- C2: for a record of the accepted operation (the row whose key is the
worker's op hash), the worker's single terminal write is determined by the
gateway interaction: if every step up to inclusion succeeds the row becomes
`completed` with the serialized confirmation receipt stored; if any exception
is raised the row becomes `failed` and nothing else is written — in
particular the receipt column, hence any error detail, is left untouched. -/
theorem spec_c2 (store : List OperationRecord) (h : String) (user_op : UserOperation)
    (relayerNonce : Int) (gateway : LedgerTx → GatewayOutcome)
    (rc : List (String × String)) (r : OperationRecord)
    (hr : r ∈ store) (hk : r.op_hash = h) :
    (gateway (buildTx user_op relayerNonce) = .success rc →
      { r with status := Status.completed, receipt := some (jsonDumpsDict rc) } ∈
        process_op store h user_op relayerNonce gateway) ∧
    (gateway (buildTx user_op relayerNonce) = .failure →
      { r with status := Status.failed } ∈
        process_op store h user_op relayerNonce gateway) := by
  constructor
  · intro hg
    unfold process_op
    rw [hg]
    unfold applyOutcome sqlUpdate
    refine List.mem_map.mpr ⟨r, hr, ?_⟩
    simp [hk, applyReceipt]
  · intro hg
    unfold process_op
    rw [hg]
    unfold applyOutcome sqlUpdate
    refine List.mem_map.mpr ⟨r, hr, ?_⟩
    simp [hk, applyReceipt]

theorem spec_c2_witness :
    ({ mkRecord "a" opExample 0 with
        status := Status.completed
        receipt := some (jsonDumpsDict [("status", "1")]) } ∈
      process_op [mkRecord "a" opExample 0] "a" opExample 5
        (fun _ => .success [("status", "1")])) ∧
    ({ mkRecord "a" opExample 0 with status := Status.failed } ∈
      process_op [mkRecord "a" opExample 0] "a" opExample 5 (fun _ => .failure)) :=
  ⟨(spec_c2 [mkRecord "a" opExample 0] "a" opExample 5 (fun _ => .success [("status", "1")])
      [("status", "1")] (mkRecord "a" opExample 0) (List.mem_singleton.mpr rfl) rfl).1 rfl,
    (spec_c2 [mkRecord "a" opExample 0] "a" opExample 5 (fun _ => .failure)
      [] (mkRecord "a" opExample 0) (List.mem_singleton.mpr rfl) rfl).2 rfl⟩

/-! ## C9 — the terminal update is a frame on status and receipt only -/

/-- C9: the worker's terminal update preserves the store's length and, for
every position, the row's identifier, operation snapshot and creation
timestamp; a row whose identifier differs from the worker's op hash is left
entirely unchanged. -/
theorem spec_c9 (store : List OperationRecord) (h : String) (user_op : UserOperation)
    (relayerNonce : Int) (gateway : LedgerTx → GatewayOutcome) (i : Nat)
    (hi : i < store.length)
    (hi2 : i < (process_op store h user_op relayerNonce gateway).length) :
    (process_op store h user_op relayerNonce gateway).length = store.length ∧
    ((process_op store h user_op relayerNonce gateway).get ⟨i, hi2⟩).op_hash =
      (store.get ⟨i, hi⟩).op_hash ∧
    ((process_op store h user_op relayerNonce gateway).get ⟨i, hi2⟩).user_op =
      (store.get ⟨i, hi⟩).user_op ∧
    ((process_op store h user_op relayerNonce gateway).get ⟨i, hi2⟩).created_at =
      (store.get ⟨i, hi⟩).created_at ∧
    ((store.get ⟨i, hi⟩).op_hash ≠ h →
      (process_op store h user_op relayerNonce gateway).get ⟨i, hi2⟩ = store.get ⟨i, hi⟩) := by
  have hmap : ∀ st rc, ∀ hj : i < (sqlUpdate store h st rc).length,
      (sqlUpdate store h st rc).get ⟨i, hj⟩ =
        (fun r => if r.op_hash == h then
            { r with status := st, receipt := applyReceipt rc r.receipt } else r)
          (store.get ⟨i, hi⟩) := by
    intro st rc hj
    unfold sqlUpdate
    simp [List.get_eq_getElem]
  unfold process_op at hi2 ⊢
  revert hi2
  generalize gateway (buildTx user_op relayerNonce) = o
  intro hi2
  cases o with
  | success rc =>
    simp only [applyOutcome] at hi2 ⊢
    rw [hmap Status.completed (some (jsonDumpsDict rc)) hi2]
    by_cases hk : (store.get ⟨i, hi⟩).op_hash = h
    · simp only [List.get_eq_getElem] at hk
      simp [length_sqlUpdate, hk, applyReceipt]
    · simp only [List.get_eq_getElem] at hk
      simp [length_sqlUpdate, hk]
  | failure =>
    simp only [applyOutcome] at hi2 ⊢
    rw [hmap Status.failed none hi2]
    by_cases hk : (store.get ⟨i, hi⟩).op_hash = h
    · simp only [List.get_eq_getElem] at hk
      simp [length_sqlUpdate, hk, applyReceipt]
    · simp only [List.get_eq_getElem] at hk
      simp [length_sqlUpdate, hk]

theorem spec_c9_witness :
    ((process_op [mkRecord "a" opExample 0, mkRecord "b" opExampleB 1] "a" opExample 5
        (fun _ => .failure)).get ⟨1, by decide⟩ =
      (([mkRecord "a" opExample 0, mkRecord "b" opExampleB 1] :
          List OperationRecord).get ⟨1, by decide⟩)) ∧
    ((process_op [mkRecord "a" opExample 0, mkRecord "b" opExampleB 1] "a" opExample 5
        (fun _ => .failure)).get ⟨0, by decide⟩).created_at =
      (([mkRecord "a" opExample 0, mkRecord "b" opExampleB 1] :
          List OperationRecord).get ⟨0, by decide⟩).created_at :=
  ⟨(spec_c9 [mkRecord "a" opExample 0, mkRecord "b" opExampleB 1] "a" opExample 5
      (fun _ => .failure) 1 (by decide) (by decide)).2.2.2.2 (by decide),
    (spec_c9 [mkRecord "a" opExample 0, mkRecord "b" opExampleB 1] "a" opExample 5
      (fun _ => .failure) 0 (by decide) (by decide)).2.2.2.1⟩

/-! ## C3 — intake validation: presence is checked, sign is not -/

theorem parse_ok_of_allPresent (raw : RawUserOperation) (hap : allPresent raw = true) :
    ∃ u, parseUserOperation raw = .ok u := by
  obtain ⟨s, n, ic, cd, cgl, vgl, pvg, mf, mpf, sg, pd⟩ := raw
  simp only [allPresent, Bool.and_eq_true] at hap
  obtain ⟨h1, h2, h3, h4, h5, h6, h7, h8, h9, h10, h11⟩ := hap
  rw [Option.isSome_iff_exists] at h1 h2 h3 h4 h5 h6 h7 h8 h9 h10 h11
  obtain ⟨s0, rfl⟩ := h1
  obtain ⟨n0, rfl⟩ := h2
  obtain ⟨ic0, rfl⟩ := h3
  obtain ⟨cd0, rfl⟩ := h4
  obtain ⟨cgl0, rfl⟩ := h5
  obtain ⟨vgl0, rfl⟩ := h6
  obtain ⟨pvg0, rfl⟩ := h7
  obtain ⟨mf0, rfl⟩ := h8
  obtain ⟨mpf0, rfl⟩ := h9
  obtain ⟨sg0, rfl⟩ := h10
  obtain ⟨pd0, rfl⟩ := h11
  exact ⟨_, rfl⟩

theorem parse_err_of_missing (raw : RawUserOperation) (hap : allPresent raw = false) :
    ∃ e, parseUserOperation raw = .error e := by
  obtain ⟨s, n, ic, cd, cgl, vgl, pvg, mf, mpf, sg, pd⟩ := raw
  cases s with
  | none => exact ⟨_, rfl⟩
  | some s0 =>
  cases n with
  | none => exact ⟨_, rfl⟩
  | some n0 =>
  cases ic with
  | none => exact ⟨_, rfl⟩
  | some ic0 =>
  cases cd with
  | none => exact ⟨_, rfl⟩
  | some cd0 =>
  cases cgl with
  | none => exact ⟨_, rfl⟩
  | some cgl0 =>
  cases vgl with
  | none => exact ⟨_, rfl⟩
  | some vgl0 =>
  cases pvg with
  | none => exact ⟨_, rfl⟩
  | some pvg0 =>
  cases mf with
  | none => exact ⟨_, rfl⟩
  | some mf0 =>
  cases mpf with
  | none => exact ⟨_, rfl⟩
  | some mpf0 =>
  cases sg with
  | none => exact ⟨_, rfl⟩
  | some sg0 =>
  cases pd with
  | none => exact ⟨_, rfl⟩
  | some pd0 => simp [allPresent] at hap

/-- A request body with every field present but a negative gas limit and a
negative fee rate.  Pydantic accepts it: the declared types are plain `int`. -/
def rawNegative : RawUserOperation :=
  { sender := some "0xAA", nonce := some 0, initCode := some "0x", callData := some "0x",
    callGasLimit := some (-1), verificationGasLimit := some 21000,
    preVerificationGas := some 21000, maxFeePerGas := some (-5), maxPriorityFeePerGas := some 1,
    signature := some "0xsig", paymasterAndData := some "0x" }

def opNegative : UserOperation :=
  { sender := "0xAA", nonce := 0, initCode := "0x", callData := "0x",
    callGasLimit := -1, verificationGasLimit := 21000, preVerificationGas := 21000,
    maxFeePerGas := -5, maxPriorityFeePerGas := 1, signature := "0xsig",
    paymasterAndData := "0x" }

/-- C3 counterexample: an input whose `callGasLimit` is the negative integer
-1 (and whose `maxFeePerGas` is -5) is accepted by intake — validation
succeeds and a record is persisted — contradicting the claim that every
negative gas/fee value fails with a validation error and persists nothing. -/
theorem spec_c3_counterexample :
    rawNegative.callGasLimit = some (-1) ∧
      rawNegative.maxFeePerGas = some (-5) ∧
      submit_op [] "a" rawNegative 0 = (.ok "a", [mkRecord "a" opNegative 0]) :=
  ⟨rfl, rfl, rfl⟩

/-- C3 (amended): intake validates only that every required Operation field
is present.  An input with a missing field fails with a validation error and
persists no record; an input with all fields present — whatever the sign of
its gas and fee integers — is accepted, and (for a fresh identifier) persists
exactly the pending record. -/
theorem spec_c3 (store : List OperationRecord) (h : String) (raw : RawUserOperation)
    (now : Int) :
    (allPresent raw = false →
      ∃ e, submit_op store h raw now = (.error (.validation e), store)) ∧
    (allPresent raw = true → hasId store h = false →
      ∃ u, parseUserOperation raw = .ok u ∧
        submit_op store h raw now = (.ok h, store ++ [mkRecord h u now])) := by
  constructor
  · intro hap
    obtain ⟨e, he⟩ := parse_err_of_missing raw hap
    exact ⟨e, by simp [submit_op, he]⟩
  · intro hap hid
    obtain ⟨u, hu⟩ := parse_ok_of_allPresent raw hap
    exact ⟨u, hu, by simp [submit_op, hu, hid]⟩

/-- A body missing its `signature` field. -/
def rawMissing : RawUserOperation :=
  { sender := some "0xAA", nonce := some 0, initCode := some "0x", callData := some "0x",
    callGasLimit := some 21000, verificationGasLimit := some 21000,
    preVerificationGas := some 21000, maxFeePerGas := some 2, maxPriorityFeePerGas := some 1,
    signature := none, paymasterAndData := some "0x" }

theorem spec_c3_witness :
    (allPresent rawMissing = false ∧
      ∃ e, submit_op [] "b" rawMissing 0 = (.error (.validation e), [])) ∧
    (allPresent rawExample = true ∧ hasId [] "b" = false ∧
      ∃ u, parseUserOperation rawExample = .ok u ∧
        submit_op [] "b" rawExample 0 = (.ok "b", [mkRecord "b" u 0])) :=
  ⟨⟨by decide, (spec_c3 [] "b" rawMissing 0).1 (by decide)⟩,
    ⟨by decide, by decide, (spec_c3 [] "b" rawExample 0).2 (by decide) (by decide)⟩⟩

/-! ## C5 — the status update never fails and never flags terminal rows -/

/-- A record already in the terminal state `failed`. -/
def recFailed : OperationRecord :=
  { op_hash := "t", user_op := opExample, status := Status.failed, receipt := none,
    created_at := 0 }

/-- C5 counterexample: called with an identifier that has no record, the
status update returns success with the store unchanged instead of a not-found
error; called on a record already in a terminal state, it returns success and
silently overwrites the terminal status instead of signalling a
programming-error violation. -/
theorem spec_c5_counterexample :
    updateStatus [] "x" Status.completed none = .ok [] ∧
      updateStatus [recFailed] "t" Status.completed (some "\x7b\x7d") =
        .ok [{ recFailed with status := Status.completed, receipt := some "\x7b\x7d" }] :=
  ⟨rfl, rfl⟩

/-- C5 (amended): the status-update operation can never fail.  On an unknown
identifier it succeeds and leaves the store unchanged (the UPDATE matches no
row), and on a record already in a terminal state it succeeds and silently
overwrites the status and receipt, with no violation signalled. -/
theorem spec_c5 (store : List OperationRecord) (h : String) (st : Status)
    (rc : Option String) :
    (hasId store h = false → updateStatus store h st rc = .ok store) ∧
    (∀ r ∈ store, r.op_hash = h → r.status ≠ Status.pending →
      updateStatus store h st rc = .ok (sqlUpdate store h st rc) ∧
        { r with status := st, receipt := applyReceipt rc r.receipt } ∈
          sqlUpdate store h st rc) := by
  constructor
  · intro hid
    unfold updateStatus
    rw [sqlUpdate_of_not_mem store h st rc ((hasId_eq_false_iff store h).mp hid)]
  · intro r hr hk _
    refine ⟨rfl, ?_⟩
    unfold sqlUpdate
    refine List.mem_map.mpr ⟨r, hr, ?_⟩
    simp [hk]

theorem spec_c5_witness :
    (hasId [recFailed] "zz" = false ∧ updateStatus [recFailed] "zz" Status.failed none =
        .ok [recFailed]) ∧
    ({ recFailed with status := Status.completed, receipt := some "rc" } ∈
      sqlUpdate [recFailed] "t" Status.completed (some "rc")) :=
  ⟨⟨by decide, (spec_c5 [recFailed] "zz" Status.failed none).1 (by decide)⟩,
    ((spec_c5 [recFailed] "t" Status.completed (some "rc")).2 recFailed
      (List.mem_singleton.mpr rfl) rfl (by decide)).2⟩

/-! ## The system invariant is inductive -/

theorem sysInv_init : SysInv initState := by
  refine ⟨?_, ?_, ?_, ?_, ?_⟩ <;> simp [initState, storeIds]

/-- Every row whose key has an outstanding task is still `pending`. -/
theorem pending_of_job (s : SysState) (hs : SysInv s) (r : OperationRecord)
    (hr : r ∈ s.store) (hj : r.op_hash ∈ s.jobs) : r.status = Status.pending := by
  by_contra hnp
  exact hs.terminal_no_job r hr hnp hj

/-- The worker's terminal write preserves the invariant: it targets a key with
an outstanding task (hence a `pending` row with a NULL receipt), consumes the
task, and writes a terminal status whose receipt matches it. -/
theorem sysInv_work (s : SysState) (h : String) (st : Status) (rc : Option String)
    (hs : SysInv s) (hj : h ∈ s.jobs)
    (hiff : applyReceipt rc none ≠ none ↔ st = Status.completed) :
    SysInv { store := sqlUpdate s.store h st rc, jobs := s.jobs.erase h } := by
  refine ⟨?_, ?_, ?_, ?_, ?_⟩
  · show (storeIds (sqlUpdate s.store h st rc)).Nodup
    rw [storeIds_sqlUpdate]
    exact hs.ids_nodup
  · exact hs.jobs_nodup.erase h
  · intro h' hh'
    show h' ∈ storeIds (sqlUpdate s.store h st rc)
    rw [storeIds_sqlUpdate]
    exact hs.jobs_sub h' (List.mem_of_mem_erase hh')
  · intro r' hr'
    unfold sqlUpdate at hr'
    obtain ⟨r, hr, rfl⟩ := List.mem_map.mp hr'
    by_cases hk : r.op_hash = h
    · have hrp : r.status = Status.pending := pending_of_job s hs r hr (hk ▸ hj)
      have hrnone : r.receipt = none := by
        by_contra hne
        have hc := (hs.receipt_iff r hr).mp hne
        rw [hrp] at hc
        cases hc
      simp only [hk, beq_self_eq_true, if_true]
      simpa [hrnone] using hiff
    · have hk' : (r.op_hash == h) = false := by simpa using hk
      simp only [hk', Bool.false_eq_true, if_false]
      exact hs.receipt_iff r hr
  · intro r' hr' hterm
    unfold sqlUpdate at hr'
    obtain ⟨r, hr, rfl⟩ := List.mem_map.mp hr'
    by_cases hk : r.op_hash = h
    · simp only [hk, beq_self_eq_true, if_true]
      intro hmem
      exact hs.jobs_nodup.not_mem_erase (hk ▸ hmem)
    · have hk' : (r.op_hash == h) = false := by simpa using hk
      simp only [hk', Bool.false_eq_true, if_false] at hterm ⊢
      intro hmem
      exact hs.terminal_no_job r hr hterm (List.mem_of_mem_erase hmem)

theorem sysInv_step (s : SysState) (e : Event) (hs : SysInv s) : SysInv (stepEvent s e) := by
  cases e with
  | submit h raw now =>
    cases hp : parseUserOperation raw with
    | error e => simpa [stepEvent, hp] using hs
    | ok u =>
      by_cases hid : hasId s.store h = true
      · simpa [stepEvent, hp, hid] using hs
      · have hid' : hasId s.store h = false := by simpa using hid
        have hfresh : ∀ r ∈ s.store, r.op_hash ≠ h := (hasId_eq_false_iff s.store h).mp hid'
        have hnotin : h ∉ storeIds s.store := by
          rw [mem_storeIds]
          rintro ⟨r, hr, hrh⟩
          exact hfresh r hr hrh
        have hjob_notin : h ∉ s.jobs := fun hj => hnotin (hs.jobs_sub h hj)
        have hids : storeIds (s.store ++ [mkRecord h u now]) = storeIds s.store ++ [h] := by
          simp [storeIds, mkRecord]
        simp only [stepEvent, hp, hid', Bool.false_eq_true, if_false]
        refine ⟨?_, ?_, ?_, ?_, ?_⟩
        · show (storeIds (s.store ++ [mkRecord h u now])).Nodup
          rw [hids]
          exact hs.ids_nodup.append (List.nodup_singleton h)
            (by simp [List.disjoint_singleton, hnotin])
        · exact List.nodup_cons.mpr ⟨hjob_notin, hs.jobs_nodup⟩
        · intro h' hh'
          show h' ∈ storeIds (s.store ++ [mkRecord h u now])
          rw [hids]
          rcases List.mem_cons.mp hh' with rfl | hh'
          · exact List.mem_append_right _ (List.mem_singleton.mpr rfl)
          · exact List.mem_append_left _ (hs.jobs_sub h' hh')
        · intro r hr
          rcases List.mem_append.mp hr with hr | hr
          · exact hs.receipt_iff r hr
          · rw [List.mem_singleton.mp hr]
            simp [mkRecord]
        · intro r hr hterm
          rcases List.mem_append.mp hr with hr | hr
          · intro hmem
            rcases List.mem_cons.mp hmem with he | hmem
            · exact hfresh r hr he
            · exact hs.terminal_no_job r hr hterm hmem
          · rw [List.mem_singleton.mp hr] at hterm
            simp [mkRecord] at hterm
  | work h outcome =>
    by_cases hj : h ∈ s.jobs
    · simp only [stepEvent, if_pos hj]
      cases outcome with
      | success rc =>
        exact sysInv_work s h Status.completed (some (jsonDumpsDict rc)) hs hj
          (by simp [applyReceipt])
      | failure =>
        exact sysInv_work s h Status.failed none hs hj (by simp [applyReceipt])
    · simpa [stepEvent, hj] using hs

theorem sysInv_runFrom (s : SysState) (es : List Event) (hs : SysInv s) :
    SysInv (runFrom s es) := by
  induction es generalizing s with
  | nil => exact hs
  | cons e es ih => exact ih (stepEvent s e) (sysInv_step s e hs)

/-- A terminal row is carried verbatim through any further event. -/
theorem terminal_mem_step (s : SysState) (e : Event) (hs : SysInv s) (r : OperationRecord)
    (hr : r ∈ s.store) (ht : r.status ≠ Status.pending) : r ∈ (stepEvent s e).store := by
  cases e with
  | submit h raw now =>
    cases hp : parseUserOperation raw with
    | error e => simpa [stepEvent, hp] using hr
    | ok u =>
      by_cases hid : hasId s.store h = true
      · simpa [stepEvent, hp, hid] using hr
      · have hid' : hasId s.store h = false := by simpa using hid
        simp only [stepEvent, hp, hid', Bool.false_eq_true, if_false]
        exact List.mem_append_left _ hr
  | work h outcome =>
    by_cases hj : h ∈ s.jobs
    · have hne : (r.op_hash == h) = false := by
        simp only [beq_eq_false_iff_ne, ne_eq]
        intro he
        exact hs.terminal_no_job r hr ht (he ▸ hj)
      simp only [stepEvent, if_pos hj]
      cases outcome with
      | success rc =>
        unfold applyOutcome sqlUpdate
        exact List.mem_map.mpr ⟨r, hr, by simp [hne]⟩
      | failure =>
        unfold applyOutcome sqlUpdate
        exact List.mem_map.mpr ⟨r, hr, by simp [hne]⟩
    · simpa [stepEvent, hj] using hr

theorem terminal_mem_runFrom (s : SysState) (es : List Event) (hs : SysInv s)
    (r : OperationRecord) (hr : r ∈ s.store) (ht : r.status ≠ Status.pending) :
    r ∈ (runFrom s es).store := by
  induction es generalizing s with
  | nil => exact hr
  | cons e es ih =>
    exact ih (stepEvent s e) (sysInv_step s e hs) (terminal_mem_step s e hs r hr ht)

theorem runFrom_append (s : SysState) (es more : List Event) :
    runFrom s (es ++ more) = runFrom (runFrom s es) more := by
  induction es generalizing s with
  | nil => rfl
  | cons e es ih => exact ih (stepEvent s e)

theorem stepEvent_store_length (s : SysState) (e : Event) :
    (stepEvent s e).store.length = s.store.length + acceptedSubmit s e := by
  cases e with
  | submit h raw now =>
    cases hp : parseUserOperation raw with
    | error e => simp [stepEvent, acceptedSubmit, hp]
    | ok u =>
      by_cases hid : hasId s.store h = true
      · simp [stepEvent, acceptedSubmit, hp, hid]
      · have hid' : hasId s.store h = false := by simpa using hid
        simp [stepEvent, acceptedSubmit, hp, hid']
  | work h outcome =>
    by_cases hj : h ∈ s.jobs
    · cases outcome <;>
        simp [stepEvent, acceptedSubmit, hj, applyOutcome, length_sqlUpdate]
    · simp [stepEvent, acceptedSubmit, hj]

theorem runFrom_store_length (s : SysState) (es : List Event) :
    (runFrom s es).store.length = s.store.length + countAccepted s es := by
  induction es generalizing s with
  | nil => simp [runFrom, countAccepted]
  | cons e es ih =>
    have h1 : runFrom s (e :: es) = runFrom (stepEvent s e) es := rfl
    rw [h1, ih (stepEvent s e), stepEvent_store_length,
      show countAccepted s (e :: es) = acceptedSubmit s e + countAccepted (stepEvent s e) es
        from rfl]
    omega

/-! ## C1 — receipt is non-null exactly on completed records -/

/-- C1: in every reachable state of the record store, a record's receipt
column is non-null if and only if its status is `completed`: intake inserts
`pending` rows with a NULL receipt, the success path writes `completed`
together with the confirmation receipt, and the failure path writes `failed`
leaving the receipt NULL. -/
theorem spec_c1 (es : List Event) (r : OperationRecord) (hr : r ∈ (run es).store) :
    r.receipt ≠ none ↔ r.status = Status.completed :=
  (sysInv_runFrom initState es sysInv_init).receipt_iff r hr

def esC1 : List Event :=
  [Event.submit "w1" rawExample 0, Event.work "w1" (.success [("ok", "1")])]

def recC1 : OperationRecord :=
  { op_hash := "w1", user_op := opExample, status := Status.completed,
    receipt := some (jsonDumpsDict [("ok", "1")]), created_at := 0 }

theorem spec_c1_witness :
    recC1 ∈ (run esC1).store ∧ (recC1.receipt ≠ none ↔ recC1.status = Status.completed) := by
  have hmem : recC1 ∈ (run esC1).store := by
    rw [show (run esC1).store = [recC1] from rfl]
    exact List.mem_singleton.mpr rfl
  exact ⟨hmem, spec_c1 esC1 recC1 hmem⟩

/-! ## C4 — a terminal status is never overwritten -/

/-- C4: once a record has reached a terminal status, no later event changes
it: after any further trace the record is still present verbatim, a status
query returns the same terminal status and receipt, and no worker task for
its identifier is outstanding, so no further terminal write can be applied
to it. -/
theorem spec_c4 (es more : List Event) (r : OperationRecord)
    (hr : r ∈ (run es).store) (ht : r.status ≠ Status.pending) :
    get_status (run (es ++ more)).store r.op_hash =
        .ok { op_hash := r.op_hash, status := r.status, receipt := decodeReceipt r.receipt } ∧
      r.op_hash ∉ (run (es ++ more)).jobs := by
  have hinv : SysInv (run es) := sysInv_runFrom initState es sysInv_init
  have heq : run (es ++ more) = runFrom (run es) more := runFrom_append initState es more
  have hmem : r ∈ (runFrom (run es) more).store :=
    terminal_mem_runFrom (run es) more hinv r hr ht
  have hinv' : SysInv (runFrom (run es) more) := sysInv_runFrom (run es) more hinv
  rw [heq]
  refine ⟨?_, hinv'.terminal_no_job r hmem ht⟩
  have hfind := findRecord_of_nodup _ r hinv'.ids_nodup hmem
  simp [get_status, hfind]

def esC4 : List Event := [Event.submit "w2" rawExample 0, Event.work "w2" .failure]

def moreC4 : List Event :=
  [Event.submit "w3" rawExample 1, Event.work "w2" (.success [("ok", "1")])]

def recC4 : OperationRecord :=
  { op_hash := "w2", user_op := opExample, status := Status.failed, receipt := none,
    created_at := 0 }

theorem spec_c4_witness :
    recC4 ∈ (run esC4).store ∧ recC4.status ≠ Status.pending ∧
      get_status (run (esC4 ++ moreC4)).store "w2" =
        .ok { op_hash := "w2", status := Status.failed, receipt := none } := by
  have hmem : recC4 ∈ (run esC4).store := by
    rw [show (run esC4).store = [recC4] from rfl]
    exact List.mem_singleton.mpr rfl
  exact ⟨hmem, by decide, (spec_c4 esC4 moreC4 recC4 hmem (by decide)).1⟩

/-! ## C6 — a successful intake issues a fresh id and is immediately pending -/

/-- C6: whenever intake succeeds, the identifier it returns belongs to no
previously persisted record (a collision would violate the primary key and
make the insert raise), and an immediate status query for it — before any
worker has acted — returns `pending` with no receipt. -/
theorem spec_c6 (store : List OperationRecord) (h : String) (raw : RawUserOperation)
    (now : Int) (res : String) (store' : List OperationRecord)
    (hsub : submit_op store h raw now = (.ok res, store')) :
    res = h ∧ (∀ r ∈ store, r.op_hash ≠ res) ∧
      ∃ u, parseUserOperation raw = .ok u ∧
        store' = store ++ [mkRecord res u now] ∧
        get_status store' res =
          .ok { op_hash := res, status := Status.pending, receipt := none } := by
  unfold submit_op at hsub
  cases hp : parseUserOperation raw with
  | error e =>
    rw [hp] at hsub
    simp at hsub
  | ok u =>
    rw [hp] at hsub
    by_cases hid : hasId store h = true
    · simp [hid] at hsub
    · have hid' : hasId store h = false := by simpa using hid
      simp only [hid', Bool.false_eq_true, if_false, Prod.mk.injEq, Except.ok.injEq] at hsub
      obtain ⟨rfl, rfl⟩ := hsub
      have hfresh : ∀ r ∈ store, r.op_hash ≠ h := (hasId_eq_false_iff store h).mp hid'
      refine ⟨rfl, hfresh, u, rfl, rfl, ?_⟩
      have hfind : findRecord (store ++ [mkRecord h u now]) h = some (mkRecord h u now) := by
        rw [findRecord_append_of_absent store [mkRecord h u now] h hfresh]
        simp [findRecord, mkRecord]
      unfold get_status
      rw [hfind]
      rfl

theorem spec_c6_witness :
    submit_op [mkRecord "z" opExample 0] "w4" rawExample 5 =
        (.ok "w4", [mkRecord "z" opExample 0, mkRecord "w4" opExample 5]) ∧
      (∀ r ∈ [mkRecord "z" opExample 0], r.op_hash ≠ "w4") ∧
      get_status [mkRecord "z" opExample 0, mkRecord "w4" opExample 5] "w4" =
        .ok { op_hash := "w4", status := Status.pending, receipt := none } := by
  have hsub : submit_op [mkRecord "z" opExample 0] "w4" rawExample 5 =
      (.ok "w4", [mkRecord "z" opExample 0, mkRecord "w4" opExample 5]) := rfl
  have hres := spec_c6 [mkRecord "z" opExample 0] "w4" rawExample 5 "w4"
    [mkRecord "z" opExample 0, mkRecord "w4" opExample 5] hsub
  obtain ⟨-, hfresh, u, -, -, hget⟩ := hres
  exact ⟨hsub, hfresh, hget⟩

/-! ## C7 — exactly one record per accepted intake, no deduplication -/

/-- Two intake calls carrying the identical operation document (same sender
`0xAA`, same nonce 0) under two distinct generated identifiers. -/
def esNoDedup : List Event :=
  [Event.submit "a1" rawExample 0, Event.submit "a2" rawExample 0]

/-- C7: in every trace the history listing has exactly one entry per accepted
intake call — its length equals the number of accepted intakes and its
identifiers are pairwise distinct (no duplicates, no omissions) — and two
submissions with identical sender and nonce are not deduplicated: they
produce two distinct pending records, both listed. -/
theorem spec_c7 :
    (∀ es : List Event, (storeIds (run es).store).Nodup ∧
        (run es).store.length = countAccepted initState es) ∧
      countAccepted initState esNoDedup = 2 ∧
      get_history (run esNoDedup).store =
        [{ op_hash := "a1", status := Status.pending, receipt := none },
          { op_hash := "a2", status := Status.pending, receipt := none }] := by
  refine ⟨fun es => ⟨(sysInv_runFrom initState es sysInv_init).ids_nodup, ?_⟩, rfl, rfl⟩
  have h1 := runFrom_store_length initState es
  simpa [run, initState] using h1
